import Mathlib

/-!
Shallow embedding of the ckb-whale-bot block-scan and whale-classification
pipeline (whale-bot.js), together with theorems checking the claims of the
natural-language specification against it.

Modelling conventions:
* JavaScript numbers used as prices are embedded as rationals (`ℚ`);
  BigInt shannon amounts as integers / naturals; timestamps as integers.
* Lock scripts are compared by their JSON serialisation in the source, so a
  lock is embedded as the opaque `String` produced by that serialisation.
* External RPC calls are embedded as explicit environment functions; a call
  that may throw returns an `Except`, a call that may return `null` returns
  an `Option`.
-/

namespace WhaleBot

/-- 1 CKB = 100,000,000 shannons (`SHANNON_PER_CKB` in whale-bot.js). -/
def SHANNON_PER_CKB : ℤ := 100000000

/-- Fiat alert threshold in USD (`WHALE_USD_THRESHOLD` in whale-bot.js). -/
def WHALE_USD_THRESHOLD : ℕ := 200000

/-- Price cache time-to-live in milliseconds (`PRICE_TTL_MS`). -/
def PRICE_TTL_MS : ℤ := 5 * 60 * 1000

/-- `whaleThresholdShannons(priceUsd)` from whale-bot.js: with no usable
price (`!priceUsd || priceUsd <= 0`) fall back to 10M CKB in shannons,
otherwise `BigInt(Math.ceil(WHALE_USD_THRESHOLD / priceUsd)) * SHANNON_PER_CKB`. -/
def whaleThresholdShannons (priceUsd : Option ℚ) : ℤ :=
  match priceUsd with
  | none => 10000000 * SHANNON_PER_CKB
  | some p =>
    if p ≤ 0 then 10000000 * SHANNON_PER_CKB
    else ⌈(WHALE_USD_THRESHOLD : ℚ) / p⌉ * SHANNON_PER_CKB

/-- The mutable price-cache state of whale-bot.js: `ckbPriceUsd` (null until
first successful fetch) and `priceFetchedAt`. -/
structure PriceState where
  ckbPriceUsd : Option ℚ
  priceFetchedAt : ℤ
deriving DecidableEq

/-- Outcome of one CoinGecko request: the request throws (`err`), or it
returns a JSON document whose `nervos-network.usd` field is either absent /
not a number (`ok none`) or a numeric price (`ok (some p)`). -/
inductive PriceFetch where
  | err : PriceFetch
  | ok : Option ℚ → PriceFetch

/-- `fetchCkbPrice()` from whale-bot.js, with the clock and the network
response passed explicitly.  Returns the updated cache state and the value
the function returns. -/
def fetchCkbPrice (now : ℤ) (fetch : PriceFetch) (s : PriceState) :
    PriceState × Option ℚ :=
  if s.ckbPriceUsd ≠ none ∧ now - s.priceFetchedAt < PRICE_TTL_MS then
    (s, s.ckbPriceUsd)
  else
    match fetch with
    | .err => (s, s.ckbPriceUsd)
    | .ok none => (s, s.ckbPriceUsd)
    | .ok (some p) =>
      if 0 < p then (⟨some p, now⟩, some p) else (s, s.ckbPriceUsd)

/-- A reference to a previously produced output (`previous_output` in the
CKB transaction JSON): source transaction hash and output index (the hex
index already parsed to a natural number, as `parseInt(..., 16)` does). -/
structure OutPoint where
  tx_hash : String
  index : ℕ
deriving DecidableEq

/-- A transaction input: only the outpoint matters to the bot. -/
structure Input where
  previous_output : OutPoint
deriving DecidableEq

/-- A transaction output: `capacity` in shannons (BigInt in the source) and
the lock script, embedded as its JSON serialisation (the source compares
locks by `JSON.stringify`). -/
structure Output where
  capacity : ℕ
  lock : String
deriving DecidableEq

/-- A CKB transaction as the bot reads it. -/
structure Transaction where
  hash : String
  inputs : List Input
  outputs : List Output
deriving DecidableEq

/-- A block: ordered transactions; index 0 is the cellbase. -/
structure Block where
  transactions : List Transaction
deriving DecidableEq

/-- The environment for `get_transaction` RPC lookups: a call either throws
(`Except.error`), returns `null` (`Except.ok none`), or returns the
transaction. -/
def TxFetcher : Type := String → Except Unit (Option Transaction)

/-- The `Promise.all` of `get_transaction` calls over a transaction's
inputs: rejects (errors) as soon as any single call rejects. -/
def resolveInputTxs (f : TxFetcher) (tx : Transaction) :
    Except Unit (List (Option Transaction)) :=
  tx.inputs.mapM (fun inp => f inp.previous_output.tx_hash)

/-- The `inputLocks` set built in `isSelfTransfer`: for each input whose
previous transaction resolved, the lock of the referenced output (skipping
null results and out-of-range indices).  Membership is all that matters, so
the JS `Set` is embedded as a list. -/
def inputLocks (inputs : List Input) (results : List (Option Transaction)) :
    List String :=
  (inputs.zip results).foldr
    (fun pr acc =>
      match pr.2 with
      | none => acc
      | some ptx =>
        match ptx.outputs[pr.1.previous_output.index]? with
        | none => acc
        | some o => o.lock :: acc)
    []

/-- `isSelfTransfer(tx)` from whale-bot.js: resolve every input's previous
output lock; on any thrown error return `false`; with an empty resolved set
return `false`; otherwise `true` iff every output lock is in the set. -/
def isSelfTransfer (f : TxFetcher) (tx : Transaction) : Bool :=
  match resolveInputTxs f tx with
  | .error _ => false
  | .ok results =>
    let locks := inputLocks tx.inputs results
    if locks.isEmpty then false
    else tx.outputs.all (fun o => decide (o.lock ∈ locks))

/-- Total output value of a transaction in shannons
(`outputs.reduce((a, b) => a + b, 0n)` over `BigInt(o.capacity)`). -/
def txTotal (tx : Transaction) : ℕ :=
  (tx.outputs.map Output.capacity).sum

/-- The alert candidates produced by `processBlock` for a fetched block:
iterate transactions from index 1 (index 0 is the cellbase, always
skipped); keep a transaction iff its total output is at least the whale
threshold for the block's price sample and it is not a self-transfer. -/
def whaleAlerts (f : TxFetcher) (priceUsd : Option ℚ) (b : Block) :
    List Transaction :=
  (b.transactions.drop 1).filter
    (fun tx =>
      decide (whaleThresholdShannons priceUsd ≤ (txTotal tx : ℤ)) &&
        !(isSelfTransfer f tx))

/-- `processBlock` over the result of `get_block_by_number`: a `null` block
yields nothing (`if (!block) return`). -/
def processBlock (f : TxFetcher) (priceUsd : Option ℚ) :
    Option Block → List Transaction
  | none => []
  | some b => whaleAlerts f priceUsd b

/-- Catch-up bound: `lastBlock + 50` in `poll` ("catch up max 50 blocks at
a time"). -/
def MAX_BATCH : ℕ := 50

/-- Longest leading digit prefix of a character list, as a number; `none`
when there is no leading digit (JS `parseInt` then yields `NaN`). -/
def digitsPrefixVal (l : List Char) : Option ℕ :=
  match l.takeWhile Char.isDigit with
  | [] => none
  | ds => some (ds.foldl (fun acc c => acc * 10 + (c.toNat - 48)) 0)

/-- JavaScript `parseInt(s, 10)` composed with the preceding `.trim()`:
skip leading whitespace (`trim` removes it and `parseInt` would skip it
anyway), take an optional sign and then the longest digit prefix, and
ignore everything after it (trailing whitespace removed by `trim` is
ignored by `parseInt` regardless); `none` models `NaN`. -/
def jsParseInt10 (s : String) : Option ℤ :=
  match s.data.dropWhile (fun c => c.isWhitespace) with
  | '-' :: rest => (digitsPrefixVal rest).map (fun v => -(v : ℤ))
  | '+' :: rest => (digitsPrefixVal rest).map (fun v => (v : ℤ))
  | l => (digitsPrefixVal l).map (fun v => (v : ℤ))

/-- `loadLastBlock()` from whale-bot.js, with the state file's content
passed explicitly (`none` models a missing or unreadable file, whose read
throws and is caught).  Returns the resumed height only when the trimmed
content parses to a number `n` with `n > 0`. -/
def loadLastBlock (file : Option String) : Option ℕ :=
  match file with
  | none => none
  | some content =>
    match jsParseInt10 content with
    | none => none
    | some n => if 0 < n then some n.toNat else none

/-- The poll driver's state: the in-memory `lastBlock` variable and the
content of the persisted `.last-block` file, as the height it records
(`savedFile` changes only when a `saveLastBlock` write succeeds). -/
structure PollState where
  lastBlock : Option ℕ
  savedFile : Option ℕ
deriving DecidableEq

/-- The environment one `poll()` cycle runs against: the chain tip returned
by `get_tip_block_number`, and whether `processBlock(n)` and
`saveLastBlock(n)` succeed at each height (a `false` models a thrown
error, caught by `poll`'s try/catch). -/
structure PollEnv where
  tip : ℕ
  procOk : ℕ → Bool
  saveOk : ℕ → Bool

/-- Observable actions of one poll cycle: `proc n` records that
`processBlock(n)` ran to completion, `save n` that `saveLastBlock(n)`
durably wrote `n`. -/
inductive Event where
  | proc : ℕ → Event
  | save : ℕ → Event
deriving DecidableEq

/-- The heights whose `processBlock` completed in an event trace. -/
def procHeights (evs : List Event) : List ℕ :=
  evs.filterMap (fun e => match e with | .proc n => some n | .save _ => none)

/-- The catch-up loop `for (n = lastBlock + 1; n <= toProcess; n++)` of
`poll`, with explicit fuel (the number of remaining iterations).  Each
iteration runs `processBlock(n)` (a failure aborts the batch with state
unchanged), then assigns the in-memory `lastBlock = n`, then
`saveLastBlock(n)` (a failure aborts the batch after that assignment). -/
def runBatch (env : PollEnv) : ℕ → ℕ → PollState → PollState × List Event
  | 0, _, s => (s, [])
  | k + 1, n, s =>
    if env.procOk n then
      if env.saveOk n then
        let r := runBatch env k (n + 1) ⟨some n, some n⟩
        (r.1, Event.proc n :: Event.save n :: r.2)
      else ({ s with lastBlock := some n }, [Event.proc n])
    else (s, [])

/-- One `poll()` cycle from whale-bot.js.  With no prior pointer, set
`lastBlock` to the tip and try to persist it; with `tip <= lastBlock` do
nothing; otherwise run the catch-up loop up to
`min tip (lastBlock + MAX_BATCH)`. -/
def pollStep (env : PollEnv) (s : PollState) : PollState × List Event :=
  match s.lastBlock with
  | none =>
    if env.saveOk env.tip then
      (⟨some env.tip, some env.tip⟩, [Event.save env.tip])
    else ({ s with lastBlock := some env.tip }, [])
  | some p =>
    if env.tip ≤ p then (s, [])
    else runBatch env (min env.tip (p + MAX_BATCH) - p) (p + 1) s

/-! ## Threshold conversion (claims C3, C4) -/

/-- C3: `thresholdInSmallestUnits` returns the fallback of 10,000,000
display units times 10^8 smallest units whenever the rate is absent or
non-positive, and for a positive rate returns `ceil(200000 / rate)` display
units times 10^8. -/
theorem whaleThresholdShannons_spec :
    whaleThresholdShannons none = 10000000 * 10 ^ 8 ∧
    (∀ p : ℚ, p ≤ 0 → whaleThresholdShannons (some p) = 10000000 * 10 ^ 8) ∧
    (∀ p : ℚ, 0 < p →
      whaleThresholdShannons (some p) = ⌈(200000 : ℚ) / p⌉ * 10 ^ 8) := by
  refine ⟨?_, ?_, ?_⟩
  · simp only [whaleThresholdShannons, SHANNON_PER_CKB]; norm_num
  · intro p hp
    simp only [whaleThresholdShannons, SHANNON_PER_CKB, if_pos hp]; norm_num
  · intro p hp
    simp only [whaleThresholdShannons, SHANNON_PER_CKB, WHALE_USD_THRESHOLD,
      if_neg (not_le.mpr hp)]
    norm_num

/-- Witness for C3 at the concrete rate 1/100 USD per CKB. -/
theorem whaleThresholdShannons_spec_witness :
    whaleThresholdShannons (some (1 / 100)) = ⌈(200000 : ℚ) / (1 / 100)⌉ * 10 ^ 8 :=
  whaleThresholdShannons_spec.2.2 (1 / 100) (by norm_num)

/-- C4 counterexample: the claim says a lower rate yields a lower-or-equal
native threshold, but at the lower rate 1/100 (vs 2/100) the threshold is
strictly greater. -/
theorem whaleThreshold_lower_rate_strictly_greater :
    ((1 : ℚ) / 100 < 2 / 100) ∧
    whaleThresholdShannons (some (2 / 100)) <
      whaleThresholdShannons (some (1 / 100)) := by
  constructor
  · norm_num
  · rw [whaleThresholdShannons, whaleThresholdShannons]
    rw [if_neg (by norm_num), if_neg (by norm_num)]
    have h1 : (WHALE_USD_THRESHOLD : ℚ) / (1 / 100) = 20000000 := by
      rw [WHALE_USD_THRESHOLD]; norm_num
    have h2 : (WHALE_USD_THRESHOLD : ℚ) / (2 / 100) = 10000000 := by
      rw [WHALE_USD_THRESHOLD]; norm_num
    rw [h1, h2, Int.ceil_ofNat, Int.ceil_ofNat, SHANNON_PER_CKB]
    norm_num

/-- C4 amended: threshold conversion is antitone in the rate — for a fixed
fiat target and positive rates `r1 ≤ r2`, the higher rate yields a
lower-or-equal native threshold; and fiat target 200,000 at rate 0.01
gives ceil(200000 / 0.01) = 20,000,000 display units in smallest units. -/
theorem whaleThresholdShannons_antitone (r1 r2 : ℚ) (h1 : 0 < r1)
    (h12 : r1 ≤ r2) :
    whaleThresholdShannons (some r2) ≤ whaleThresholdShannons (some r1) ∧
    whaleThresholdShannons (some (1 / 100)) = 20000000 * SHANNON_PER_CKB := by
  have h2 : 0 < r2 := lt_of_lt_of_le h1 h12
  constructor
  · rw [whaleThresholdShannons, whaleThresholdShannons]
    rw [if_neg (not_le.mpr h1), if_neg (not_le.mpr h2)]
    apply mul_le_mul_of_nonneg_right
    · apply Int.ceil_le_ceil
      gcongr
    · rw [SHANNON_PER_CKB]; norm_num
  · rw [whaleThresholdShannons]
    rw [if_neg (by norm_num)]
    have h : (WHALE_USD_THRESHOLD : ℚ) / (1 / 100) = 20000000 := by
      rw [WHALE_USD_THRESHOLD]; norm_num
    rw [h, Int.ceil_ofNat]; norm_num [SHANNON_PER_CKB]

/-- Witness for the amended C4 at the concrete rates 1/100 ≤ 2/100. -/
theorem whaleThresholdShannons_antitone_witness :
    whaleThresholdShannons (some (2 / 100)) ≤
      whaleThresholdShannons (some (1 / 100)) ∧
    whaleThresholdShannons (some (1 / 100)) = 20000000 * SHANNON_PER_CKB :=
  whaleThresholdShannons_antitone (1 / 100) (2 / 100) (by norm_num) (by norm_num)

/-! ## Price cache (claim C8) -/

/-- C8: `fetchCkbPrice` returns the cached rate, touching nothing, while
the sample is fresh; on a stale sample it refreshes, replacing rate and
timestamp on a valid fetched price; a failed refresh — a thrown fetch, a
response without a numeric price field, or a non-positive price — leaves
the state unchanged and returns the last known rate (or the `none`
sentinel), never raising. -/
theorem fetchCkbPrice_spec :
    (∀ (now : ℤ) (f : PriceFetch) (s : PriceState) (r : ℚ),
      s.ckbPriceUsd = some r → now - s.priceFetchedAt < PRICE_TTL_MS →
      fetchCkbPrice now f s = (s, some r)) ∧
    (∀ (now : ℤ) (s : PriceState) (p : ℚ),
      (s.ckbPriceUsd = none ∨ PRICE_TTL_MS ≤ now - s.priceFetchedAt) →
      0 < p →
      fetchCkbPrice now (.ok (some p)) s = (⟨some p, now⟩, some p)) ∧
    (∀ (now : ℤ) (s : PriceState),
      (s.ckbPriceUsd = none ∨ PRICE_TTL_MS ≤ now - s.priceFetchedAt) →
      fetchCkbPrice now .err s = (s, s.ckbPriceUsd)) ∧
    (∀ (now : ℤ) (s : PriceState),
      (s.ckbPriceUsd = none ∨ PRICE_TTL_MS ≤ now - s.priceFetchedAt) →
      fetchCkbPrice now (.ok none) s = (s, s.ckbPriceUsd)) ∧
    (∀ (now : ℤ) (s : PriceState) (p : ℚ),
      (s.ckbPriceUsd = none ∨ PRICE_TTL_MS ≤ now - s.priceFetchedAt) →
      p ≤ 0 →
      fetchCkbPrice now (.ok (some p)) s = (s, s.ckbPriceUsd)) := by
  refine ⟨?_, ?_, ?_, ?_, ?_⟩
  · intro now f s r hr hfresh
    unfold fetchCkbPrice
    rw [if_pos ⟨by simp [hr], hfresh⟩, hr]
  · intro now s p hstale hp
    unfold fetchCkbPrice
    rw [if_neg]
    · simp [hp]
    · rintro ⟨hne, hfresh⟩
      rcases hstale with h | h
      · exact hne h
      · omega
  · intro now s hstale
    unfold fetchCkbPrice
    rw [if_neg]
    rintro ⟨hne, hfresh⟩
    rcases hstale with h | h
    · exact hne h
    · omega
  · intro now s hstale
    unfold fetchCkbPrice
    rw [if_neg]
    rintro ⟨hne, hfresh⟩
    rcases hstale with h | h
    · exact hne h
    · omega
  · intro now s p hstale hp
    unfold fetchCkbPrice
    rw [if_neg]
    · simp [not_lt.mpr hp]
    · rintro ⟨hne, hfresh⟩
      rcases hstale with h | h
      · exact hne h
      · omega

/-- Witness for C8: a fresh cached rate of 1/2 is returned unchanged even
when the refresh would fail. -/
theorem fetchCkbPrice_spec_witness :
    fetchCkbPrice 0 PriceFetch.err ⟨some (1 / 2), 0⟩ = (⟨some (1 / 2), 0⟩, some (1 / 2)) :=
  fetchCkbPrice_spec.1 0 PriceFetch.err ⟨some (1 / 2), 0⟩ (1 / 2) rfl (by decide)

/-! ## Block scanning and self-transfer classification (claims C1, C2) -/

/-- Membership in `drop 1` is membership at an index at least 1. -/
lemma mem_drop_one_iff {α : Type} (l : List α) (a : α) :
    a ∈ l.drop 1 ↔ ∃ i, 1 ≤ i ∧ l[i]? = some a := by
  rw [List.mem_iff_getElem?]
  constructor
  · rintro ⟨i, hi⟩
    refine ⟨1 + i, by omega, ?_⟩
    rw [← List.getElem?_drop]
    exact hi
  · rintro ⟨i, h1, hi⟩
    refine ⟨i - 1, ?_⟩
    rw [List.getElem?_drop]
    have h : 1 + (i - 1) = i := by omega
    rw [h]
    exact hi

/-- C1: a transaction is an alert candidate of a fetched block iff it sits
at some index ≥ 1 (index 0, the cellbase, is never scanned), its summed
output value reaches the threshold for the block's price sample, and the
classifier does not call it a self-transfer. -/
theorem whaleAlerts_mem_iff (f : TxFetcher) (priceUsd : Option ℚ) (b : Block)
    (tx : Transaction) :
    tx ∈ whaleAlerts f priceUsd b ↔
      ((∃ i, 1 ≤ i ∧ b.transactions[i]? = some tx) ∧
       whaleThresholdShannons priceUsd ≤ (txTotal tx : ℤ) ∧
       isSelfTransfer f tx = false) := by
  rw [whaleAlerts, List.mem_filter, mem_drop_one_iff]
  simp only [Bool.and_eq_true, decide_eq_true_eq, Bool.not_eq_true']

/-- Witness for C1: a 10M-CKB transaction at index 1 of a two-transaction
block is alerted on under the fallback threshold. -/
theorem whaleAlerts_mem_iff_witness :
    (⟨"0xbig", [], [⟨1000000000000000, "L1"⟩]⟩ : Transaction) ∈
      whaleAlerts (fun _ => .error ()) none
        ⟨[⟨"0xcb", [], [⟨1, "L0"⟩]⟩,
          ⟨"0xbig", [], [⟨1000000000000000, "L1"⟩]⟩]⟩ :=
  (whaleAlerts_mem_iff _ _ _ _).mpr ⟨⟨1, by decide, rfl⟩, by decide, rfl⟩

/-- C2: the classifier returns `false` when resolution throws (the error is
swallowed) and when the resolved input-authority set is empty; with a
non-empty resolved set it returns `true` exactly when every output's lock
is in the set. -/
theorem isSelfTransfer_spec (f : TxFetcher) (tx : Transaction) :
    (resolveInputTxs f tx = .error () → isSelfTransfer f tx = false) ∧
    (∀ rs, resolveInputTxs f tx = .ok rs → inputLocks tx.inputs rs = [] →
      isSelfTransfer f tx = false) ∧
    (∀ rs, resolveInputTxs f tx = .ok rs → inputLocks tx.inputs rs ≠ [] →
      (isSelfTransfer f tx = true ↔
        ∀ o ∈ tx.outputs, o.lock ∈ inputLocks tx.inputs rs)) := by
  refine ⟨?_, ?_, ?_⟩
  · intro h
    simp [isSelfTransfer, h]
  · intro rs h hemp
    simp [isSelfTransfer, h, hemp]
  · intro rs h hne
    rcases List.exists_cons_of_ne_nil hne with ⟨a, as, hl⟩
    simp [isSelfTransfer, h, hl]

/-- Witness for C2: a transaction whose single output lock equals its
single resolved input lock is classified as a self-transfer. -/
theorem isSelfTransfer_spec_witness :
    isSelfTransfer (fun _ => .ok (some ⟨"p", [], [⟨100, "A"⟩]⟩))
      ⟨"h", [⟨⟨"p", 0⟩⟩], [⟨100, "A"⟩]⟩ = true :=
  ((isSelfTransfer_spec (fun _ => .ok (some ⟨"p", [], [⟨100, "A"⟩]⟩))
      ⟨"h", [⟨⟨"p", 0⟩⟩], [⟨100, "A"⟩]⟩).2.2
    [some ⟨"p", [], [⟨100, "A"⟩]⟩] rfl (by decide)).mpr (by decide)

/-! ## Poll driver (claims C5, C6, C7, C9, C10) -/

/-- Appending one element to a `range'` appends the next height. -/
lemma range'_append_last (s n : ℕ) :
    List.range' s (n + 1) = List.range' s n ++ [s + n] := by
  induction n generalizing s with
  | zero => simp
  | succ n ih =>
    have h : s + 1 + n = s + (n + 1) := by omega
    rw [List.range'_succ s (n + 1) 1, ih (s + 1), h, List.range'_succ s n 1]
    rfl

/-- `procHeights` distributes over concatenation of traces. -/
lemma procHeights_append (l1 l2 : List Event) :
    procHeights (l1 ++ l2) = procHeights l1 ++ procHeights l2 := by
  simp [procHeights]

/-- The processed heights of a completed-iteration trace are the heights
themselves. -/
lemma procHeights_pairs (l : List ℕ) :
    procHeights (l.flatMap (fun m => [Event.proc m, Event.save m])) = l := by
  induction l with
  | nil => rfl
  | cons a l ih =>
    rw [List.flatMap_cons, procHeights_append, ih]
    rfl

/-- With every height of the batch succeeding, `runBatch` with fuel `k + 1`
from height `n` ends with both pointers at `n + k` and a trace of
process-then-save pairs for heights `n .. n + k` in order. -/
lemma runBatch_ok (env : PollEnv) :
    ∀ (k n : ℕ) (s : PollState),
      (∀ m, n ≤ m → m ≤ n + k → env.procOk m = true ∧ env.saveOk m = true) →
      runBatch env (k + 1) n s =
        (⟨some (n + k), some (n + k)⟩,
         (List.range' n (k + 1)).flatMap
           (fun m => [Event.proc m, Event.save m])) := by
  intro k
  induction k with
  | zero =>
    intro n s hok
    have h0 := hok n (le_refl n) (by omega)
    rw [runBatch]
    simp [h0.1, h0.2, runBatch, List.range'_succ]
  | succ k ih =>
    intro n s hok
    have h0 := hok n (le_refl n) (by omega)
    have he : n + 1 + k = n + (k + 1) := by omega
    rw [runBatch]
    simp only [h0.1, h0.2, if_true]
    rw [ih (n + 1) ⟨some n, some n⟩ (fun m h1 h2 => hok m (by omega) (by omega))]
    rw [List.range'_succ n (k + 1) 1]
    simp [List.flatMap_cons, he]

/-- If the first `j` heights succeed and `processBlock` fails at height
`n + j` (with enough fuel to reach it), the batch stops with the pointers
at the last completed height and only the first `j` heights traced. -/
lemma runBatch_procFail (env : PollEnv) :
    ∀ (j k n : ℕ) (s : PollState),
      j < k →
      (∀ m, n ≤ m → m < n + j → env.procOk m = true ∧ env.saveOk m = true) →
      env.procOk (n + j) = false →
      runBatch env k n s =
        ((if j = 0 then s else ⟨some (n + j - 1), some (n + j - 1)⟩),
         (List.range' n j).flatMap (fun m => [Event.proc m, Event.save m])) := by
  intro j
  induction j with
  | zero =>
    intro k n s hjk hok hfail
    obtain ⟨k', rfl⟩ : ∃ k', k = k' + 1 := ⟨k - 1, by omega⟩
    rw [runBatch]
    simp at hfail
    simp [hfail]
  | succ j ih =>
    intro k n s hjk hok hfail
    obtain ⟨k', rfl⟩ : ∃ k', k = k' + 1 := ⟨k - 1, by omega⟩
    have h0 := hok n (le_refl n) (by omega)
    have he : n + 1 + j = n + (j + 1) := by omega
    rw [runBatch]
    simp only [h0.1, h0.2, if_true]
    rw [ih k' (n + 1) ⟨some n, some n⟩ (by omega)
      (fun m h1 h2 => hok m (by omega) (by omega)) (by rw [he]; exact hfail)]
    rw [List.range'_succ n j 1]
    cases j with
    | zero => simp
    | succ i =>
      have h2 : n + 1 + (i + 1) - 1 = n + (i + 1 + 1) - 1 := by omega
      simp [List.flatMap_cons, h2]

/-- If the first `j` heights succeed, `processBlock (n + j)` succeeds but
`saveLastBlock (n + j)` fails, the batch stops with the in-memory pointer
already advanced to `n + j` while the file still records the previous
successful save. -/
lemma runBatch_saveFail (env : PollEnv) :
    ∀ (j k n : ℕ) (s : PollState),
      j < k →
      (∀ m, n ≤ m → m < n + j → env.procOk m = true ∧ env.saveOk m = true) →
      env.procOk (n + j) = true → env.saveOk (n + j) = false →
      runBatch env k n s =
        (⟨some (n + j), if j = 0 then s.savedFile else some (n + j - 1)⟩,
         ((List.range' n j).flatMap (fun m => [Event.proc m, Event.save m])) ++
           [Event.proc (n + j)]) := by
  intro j
  induction j with
  | zero =>
    intro k n s hjk hok hproc hsave
    obtain ⟨k', rfl⟩ : ∃ k', k = k' + 1 := ⟨k - 1, by omega⟩
    rw [runBatch]
    simp at hproc hsave
    simp [hproc, hsave]
  | succ j ih =>
    intro k n s hjk hok hproc hsave
    obtain ⟨k', rfl⟩ : ∃ k', k = k' + 1 := ⟨k - 1, by omega⟩
    have h0 := hok n (le_refl n) (by omega)
    have he : n + 1 + j = n + (j + 1) := by omega
    rw [runBatch]
    simp only [h0.1, h0.2, if_true]
    rw [ih k' (n + 1) ⟨some n, some n⟩ (by omega)
      (fun m h1 h2 => hok m (by omega) (by omega))
      (by rw [he]; exact hproc) (by rw [he]; exact hsave)]
    rw [List.range'_succ n j 1]
    cases j with
    | zero => simp
    | succ i =>
      have h2 : n + 1 + (i + 1) - 1 = n + (i + 1 + 1) - 1 := by omega
      simp [List.flatMap_cons, he, h2]

/-- A batch never completes more heights than its fuel. -/
lemma runBatch_length_le (env : PollEnv) :
    ∀ (k n : ℕ) (s : PollState),
      (procHeights (runBatch env k n s).2).length ≤ k := by
  intro k
  induction k with
  | zero => intro n s; simp [runBatch, procHeights]
  | succ k ih =>
    intro n s
    rw [runBatch]
    cases hp : env.procOk n with
    | false => simp [procHeights]
    | true =>
      cases hs : env.saveOk n with
      | false => simp [procHeights]
      | true =>
        simp only [if_true]
        have := ih (n + 1) ⟨some n, some n⟩
        simp [procHeights] at this ⊢
        omega

/-- A batch leaves the in-memory pointer unchanged or at a height at least
the batch's first height. -/
lemma runBatch_lastBlock_cases (env : PollEnv) :
    ∀ (k n : ℕ) (s : PollState),
      (runBatch env k n s).1.lastBlock = s.lastBlock ∨
      ∃ m, n ≤ m ∧ (runBatch env k n s).1.lastBlock = some m := by
  intro k
  induction k with
  | zero => intro n s; left; rfl
  | succ k ih =>
    intro n s
    rw [runBatch]
    cases hp : env.procOk n with
    | false => left; rfl
    | true =>
      cases hs : env.saveOk n with
      | false =>
        right
        exact ⟨n, le_refl n, rfl⟩
      | true =>
        simp only [if_true]
        rcases ih (n + 1) ⟨some n, some n⟩ with h | ⟨m, hm, h⟩
        · right; exact ⟨n, le_refl n, h⟩
        · right; exact ⟨m, by omega, h⟩

/-- `pollStep` with a present pointer: idle or catch-up. -/
lemma pollStep_some (env : PollEnv) (s : PollState) (p : ℕ)
    (hp : s.lastBlock = some p) :
    pollStep env s =
      if env.tip ≤ p then (s, [])
      else runBatch env (min env.tip (p + MAX_BATCH) - p) (p + 1) s := by
  rw [pollStep, hp]

/-- `pollStep` with no prior pointer: start at the tip. -/
lemma pollStep_none (env : PollEnv) (s : PollState)
    (hp : s.lastBlock = none) :
    pollStep env s =
      if env.saveOk env.tip then
        (⟨some env.tip, some env.tip⟩, [Event.save env.tip])
      else ({ s with lastBlock := some env.tip }, []) := by
  rw [pollStep, hp]

/-- C5: in a fully successful catch-up cycle with tip above the pointer
`p`, the cycle's trace is exactly process-then-save for each height
`p+1 .. min tip (p + MAX_BATCH)` in strictly increasing order, the pointer
ends at that bound, and no cycle ever completes more than `MAX_BATCH`
heights. -/
theorem pollStep_catchup (env : PollEnv) (s : PollState) (p : ℕ)
    (hp : s.lastBlock = some p) (ht : p < env.tip)
    (hok : ∀ n, p < n → n ≤ min env.tip (p + MAX_BATCH) →
      env.procOk n = true ∧ env.saveOk n = true) :
    (pollStep env s).2 =
      (List.range' (p + 1) (min env.tip (p + MAX_BATCH) - p)).flatMap
        (fun n => [Event.proc n, Event.save n]) ∧
    procHeights (pollStep env s).2 =
      List.range' (p + 1) (min env.tip (p + MAX_BATCH) - p) ∧
    List.Pairwise (· < ·) (procHeights (pollStep env s).2) ∧
    (pollStep env s).1.lastBlock = some (min env.tip (p + MAX_BATCH)) ∧
    (procHeights (pollStep env s).2).length ≤ MAX_BATCH := by
  have hpm : p < min env.tip (p + MAX_BATCH) := by
    simp only [MAX_BATCH]
    omega
  have hstep : pollStep env s =
      runBatch env (min env.tip (p + MAX_BATCH) - p) (p + 1) s := by
    rw [pollStep_some env s p hp, if_neg (not_le.mpr ht)]
  have hfuel : min env.tip (p + MAX_BATCH) - p =
      (min env.tip (p + MAX_BATCH) - p - 1) + 1 := by omega
  have hend : p + 1 + (min env.tip (p + MAX_BATCH) - p - 1) =
      min env.tip (p + MAX_BATCH) := by omega
  have hrun := runBatch_ok env (min env.tip (p + MAX_BATCH) - p - 1) (p + 1) s
    (fun m h1 h2 => hok m (by omega) (by omega))
  rw [hstep, hfuel, hrun, hend]
  refine ⟨rfl, ?_, ?_, rfl, ?_⟩
  · rw [procHeights_pairs]
  · rw [procHeights_pairs]
    exact List.pairwise_lt_range' (p + 1) (min env.tip (p + MAX_BATCH) - p - 1 + 1)
  · rw [procHeights_pairs, List.length_range']
    simp only [MAX_BATCH] at hpm ⊢
    omega

/-- Witness for C5: from pointer 0 with tip 2 and everything succeeding,
the cycle ends with the pointer at the batch bound. -/
theorem pollStep_catchup_witness :
    (pollStep ⟨2, fun _ => true, fun _ => true⟩ ⟨some 0, some 0⟩).1.lastBlock =
      some (min 2 (0 + MAX_BATCH)) :=
  (pollStep_catchup ⟨2, fun _ => true, fun _ => true⟩ ⟨some 0, some 0⟩ 0 rfl
    (by decide) (fun n h1 h2 => ⟨rfl, rfl⟩)).2.2.2.1

/-- C6: the in-memory pointer never decreases across a cycle, and a
`processBlock` failure at height `h` of a catch-up batch aborts the rest
of the batch, leaving the pointer at the last successfully completed
height `h - 1` with exactly the heights below `h` processed. -/
theorem pollStep_pointer_spec :
    (∀ (env : PollEnv) (s : PollState) (p q : ℕ),
      s.lastBlock = some p → (pollStep env s).1.lastBlock = some q → p ≤ q) ∧
    (∀ (env : PollEnv) (s : PollState) (p h : ℕ),
      s.lastBlock = some p → p < env.tip →
      p < h → h ≤ min env.tip (p + MAX_BATCH) →
      (∀ n, p < n → n < h → env.procOk n = true ∧ env.saveOk n = true) →
      env.procOk h = false →
      (pollStep env s).1.lastBlock = some (h - 1) ∧
      procHeights (pollStep env s).2 = List.range' (p + 1) (h - 1 - p)) := by
  constructor
  · intro env s p q hp hq
    rw [pollStep_some env s p hp] at hq
    by_cases htip : env.tip ≤ p
    · rw [if_pos htip] at hq
      have hsq : s.lastBlock = some q := hq
      rw [hp] at hsq
      injection hsq with h
      omega
    · rw [if_neg htip] at hq
      rcases runBatch_lastBlock_cases env (min env.tip (p + MAX_BATCH) - p)
        (p + 1) s with h | ⟨m, hm, h⟩
      · rw [h, hp] at hq
        injection hq with h'
        omega
      · rw [h] at hq
        injection hq with h'
        omega
  · intro env s p h hp ht hh1 hh2 hok hfail
    have hstep : pollStep env s =
        runBatch env (min env.tip (p + MAX_BATCH) - p) (p + 1) s := by
      rw [pollStep_some env s p hp, if_neg (not_le.mpr ht)]
    have hj : p + 1 + (h - (p + 1)) = h := by omega
    have hrun := runBatch_procFail env (h - (p + 1))
      (min env.tip (p + MAX_BATCH) - p) (p + 1) s (by omega)
      (fun m h1 h2 => hok m (by omega) (by omega)) (by rw [hj]; exact hfail)
    rw [hstep, hrun]
    constructor
    · by_cases h0 : h - (p + 1) = 0
      · rw [if_pos h0]
        show s.lastBlock = some (h - 1)
        rw [hp]
        congr 1
        omega
      · rw [if_neg h0]
        show some (p + 1 + (h - (p + 1)) - 1) = some (h - 1)
        congr 1
        omega
    · show procHeights ((List.range' (p + 1) (h - (p + 1))).flatMap
        (fun m => [Event.proc m, Event.save m])) = List.range' (p + 1) (h - 1 - p)
      rw [procHeights_pairs]
      congr 1
      omega

/-- Witness for C6: a failure at the first height of the batch leaves the
pointer where it was, with nothing processed. -/
theorem pollStep_pointer_spec_witness :
    (pollStep ⟨3, fun _ => false, fun _ => true⟩ ⟨some 1, some 1⟩).1.lastBlock
      = some (2 - 1) ∧
    procHeights (pollStep ⟨3, fun _ => false, fun _ => true⟩
      ⟨some 1, some 1⟩).2 = List.range' (1 + 1) (2 - 1 - 1) :=
  pollStep_pointer_spec.2 ⟨3, fun _ => false, fun _ => true⟩ ⟨some 1, some 1⟩
    1 2 rfl (by decide) (by decide) (by decide)
    (by intro n h1 h2; omega) rfl

/-- C7: on first-ever run (no loaded pointer) a cycle whose save succeeds
sets both the in-memory and persisted pointer to the current tip and
processes zero blocks. -/
theorem pollStep_firstRun (env : PollEnv) (s : PollState)
    (hp : s.lastBlock = none) (hsave : env.saveOk env.tip = true) :
    pollStep env s =
      (⟨some env.tip, some env.tip⟩, [Event.save env.tip]) ∧
    procHeights (pollStep env s).2 = [] := by
  have h1 : pollStep env s =
      (⟨some env.tip, some env.tip⟩, [Event.save env.tip]) := by
    rw [pollStep_none env s hp, if_pos hsave]
  exact ⟨h1, by rw [h1]; rfl⟩

/-- Witness for C7 at tip 7. -/
theorem pollStep_firstRun_witness :
    pollStep ⟨7, fun _ => true, fun _ => true⟩ ⟨none, some 4⟩ =
      (⟨some 7, some 7⟩, [Event.save 7]) ∧
    procHeights (pollStep ⟨7, fun _ => true, fun _ => true⟩
      ⟨none, some 4⟩).2 = [] :=
  pollStep_firstRun ⟨7, fun _ => true, fun _ => true⟩ ⟨none, some 4⟩ rfl rfl

/-- C9 counterexample: with tip 3, every `processBlock` succeeding and
every `saveLastBlock` failing, the cycle starting from pointer 0 ends with
the in-memory pointer — the pointer state subsequent cycles use — at the
height whose save failed (1), not at the last height whose save succeeded
(0): the failed save does change the tracker's state. -/
theorem pollStep_saveFail_counterexample :
    (pollStep ⟨3, fun _ => true, fun _ => false⟩ ⟨some 0, some 0⟩).1.lastBlock
      = some 1 ∧
    (pollStep ⟨3, fun _ => true, fun _ => false⟩ ⟨some 0, some 0⟩).1.savedFile
      = some 0 ∧
    (pollStep ⟨3, fun _ => true, fun _ => false⟩ ⟨some 0, some 0⟩).1 ≠
      (⟨some 0, some 0⟩ : PollState) := by
  refine ⟨rfl, rfl, by decide⟩

/-- C9 amended: a failed save of height `h` is fatal to the cycle — no
height after `h` is processed and the file keeps the last successful save —
but the in-memory pointer used by subsequent cycles has already advanced
to `h` itself. -/
theorem pollStep_saveFail (env : PollEnv) (s : PollState) (p h : ℕ)
    (hp : s.lastBlock = some p) (ht : p < env.tip)
    (hh1 : p < h) (hh2 : h ≤ min env.tip (p + MAX_BATCH))
    (hok : ∀ n, p < n → n < h → env.procOk n = true ∧ env.saveOk n = true)
    (hproc : env.procOk h = true) (hsave : env.saveOk h = false) :
    (pollStep env s).1.lastBlock = some h ∧
    (pollStep env s).1.savedFile =
      (if h = p + 1 then s.savedFile else some (h - 1)) ∧
    procHeights (pollStep env s).2 = List.range' (p + 1) (h - p) := by
  have hstep : pollStep env s =
      runBatch env (min env.tip (p + MAX_BATCH) - p) (p + 1) s := by
    rw [pollStep_some env s p hp, if_neg (not_le.mpr ht)]
  have hj : p + 1 + (h - (p + 1)) = h := by omega
  have hrun := runBatch_saveFail env (h - (p + 1))
    (min env.tip (p + MAX_BATCH) - p) (p + 1) s (by omega)
    (fun m h1 h2 => hok m (by omega) (by omega))
    (by rw [hj]; exact hproc) (by rw [hj]; exact hsave)
  rw [hstep, hrun]
  refine ⟨?_, ?_, ?_⟩
  · show some (p + 1 + (h - (p + 1))) = some h
    rw [hj]
  · show (if h - (p + 1) = 0 then s.savedFile
      else some (p + 1 + (h - (p + 1)) - 1)) = _
    by_cases h0 : h - (p + 1) = 0
    · rw [if_pos h0, if_pos (by omega : h = p + 1)]
    · rw [if_neg h0, if_neg (by omega : ¬h = p + 1)]
      congr 1
      omega
  · show procHeights ((List.range' (p + 1) (h - (p + 1))).flatMap
        (fun m => [Event.proc m, Event.save m]) ++
        [Event.proc (p + 1 + (h - (p + 1)))])
      = List.range' (p + 1) (h - p)
    rw [procHeights_append, procHeights_pairs, hj]
    have hhp : h - p = (h - (p + 1)) + 1 := by omega
    rw [hhp, range'_append_last]
    congr 1
    · show procHeights [Event.proc h] = [p + 1 + (h - (p + 1))]
      rw [hj]
      rfl

/-- Witness for the amended C9: save fails at the batch's first height. -/
theorem pollStep_saveFail_witness :
    (pollStep ⟨3, fun _ => true, fun _ => false⟩ ⟨some 0, some 0⟩).1.lastBlock
      = some 1 ∧
    (pollStep ⟨3, fun _ => true, fun _ => false⟩ ⟨some 0, some 0⟩).1.savedFile
      = (if 1 = 0 + 1 then (⟨some 0, some 0⟩ : PollState).savedFile
          else some (1 - 1)) ∧
    procHeights (pollStep ⟨3, fun _ => true, fun _ => false⟩
      ⟨some 0, some 0⟩).2 = List.range' (0 + 1) (1 - 0) :=
  pollStep_saveFail ⟨3, fun _ => true, fun _ => false⟩ ⟨some 0, some 0⟩ 0 1
    rfl (by decide) (by decide) (by decide)
    (by intro n h1 h2; omega) rfl rfl

/-- C10: `loadLastBlock` yields no pointer for a missing or unreadable
file, an unparseable content, or a parsed value at most 0 — in particular
for content "0" — and only ever yields positive heights; and a state whose
pointer was loaded from "0" makes the next cycle set the pointer to the
current tip and process no historical block. -/
theorem loadLastBlock_spec :
    loadLastBlock none = none ∧
    (∀ c, jsParseInt10 c = none → loadLastBlock (some c) = none) ∧
    (∀ c n, jsParseInt10 c = some n → n ≤ 0 → loadLastBlock (some c) = none) ∧
    (∀ c n, loadLastBlock (some c) = some n → 0 < n) ∧
    loadLastBlock (some "0") = none ∧
    (∀ (env : PollEnv) (s : PollState),
      s.lastBlock = loadLastBlock (some "0") →
      (pollStep env s).1.lastBlock = some env.tip ∧
      procHeights (pollStep env s).2 = []) := by
  refine ⟨rfl, ?_, ?_, ?_, rfl, ?_⟩
  · intro c hc
    rw [loadLastBlock, hc]
  · intro c n hc hn
    rw [loadLastBlock, hc]
    show (if 0 < n then some n.toNat else none) = none
    rw [if_neg (by omega : ¬(0 : ℤ) < n)]
  · intro c n hc
    rw [loadLastBlock] at hc
    cases hparse : jsParseInt10 c with
    | none => rw [hparse] at hc; simp at hc
    | some m =>
      rw [hparse] at hc
      have hc' : (if 0 < m then some m.toNat else none) = some n := hc
      by_cases hm : (0 : ℤ) < m
      · rw [if_pos hm] at hc'
        injection hc' with h
        omega
      · rw [if_neg hm] at hc'
        simp at hc'
  · intro env s hs
    have hnone : s.lastBlock = none := by rw [hs]; rfl
    rw [pollStep_none env s hnone]
    cases hsv : env.saveOk env.tip with
    | true => simp [procHeights]
    | false => simp [procHeights]

/-- Witness for C10: a state loaded from "0" starts at the tip. -/
theorem loadLastBlock_spec_witness :
    (pollStep ⟨7, fun _ => true, fun _ => true⟩ ⟨none, none⟩).1.lastBlock
      = some 7 ∧
    procHeights (pollStep ⟨7, fun _ => true, fun _ => true⟩
      ⟨none, none⟩).2 = [] :=
  loadLastBlock_spec.2.2.2.2.2 ⟨7, fun _ => true, fun _ => true⟩
    ⟨none, none⟩ rfl

end WhaleBot
